import Mathlib

/-!
Shallow embedding of `src/app/main.py`: a batch CSV-reconciliation pipeline.
For each entity the script reads a CSV, bulk-validates it with pandera,
and then, per row, archives the row into a `raw_` table and — if the row
passes `validate_row_data` — upserts it into the canonical table; errors are
accumulated in an `errorHandler` and flushed once at the end of the run.

Modelling conventions:
* Python runtime values that can appear in a dataframe cell are the inductive
  `Value`; `main` replaces NaN by `None` (`df.where(pd.notnull(df), None)`),
  so a single `vNull` models both null representations.
* The declared pandera column dtypes are `ColType`; the code's runtime
  comparison `schema_column_type.__eq__(type(col_value))` is modelled as
  constructor equality (`typeMatches`): numpy/python type-object equality is
  abstracted to "runtime type equals declared type", the behaviour pinned by
  the repository's own `test_validate_row_data`.
* External library calls (pandas read, pandera bulk validate, SQL execute)
  are driven by outcome oracles supplied as inputs (`ReadOutcome`,
  `Option String`, `DbOutcome`).  `DbOutcome.ok rc` is a completed execute
  whose result reports `rc` affected rows; `DbOutcome.exn` is a raised
  exception.  The guard `if not result:` in `save_to_raw_data_table` tests
  the truthiness of a SQLAlchemy `CursorResult`, which defines neither
  `__bool__` nor `__len__` and is therefore always truthy: the guard never
  fires, so its `raise` (and the error record it would produce) is dead
  code, and a completed execute reporting zero affected rows commits no raw
  record and logs nothing.
* `uuid4()` is modelled by a fresh-id counter, `datetime.now()` by a clock
  counter in the state; the dataclass default
  `timestamp: datetime = str(datetime.now())` of `errorHandler.errorRecord`
  is evaluated once at class-definition time and is therefore a fixed
  parameter `T0` threaded through the run.
* Python exceptions that the script does not catch (the `KeyError` that
  `validate_row_data` can raise, and the `IndexError` raised when an except
  clause formats `row[0]` of an empty row) are modelled by `Option`/`none`.
-/

namespace DemaIngest

/-- A dataframe cell value after `df.where(pd.notnull(df), None)`. -/
inductive Value where
  | vNull
  | vStr (s : String)
  | vInt (n : Int)
  | vFloat (r : String)
deriving DecidableEq, Repr

/-- `pd.isnull` on a normalized cell. -/
def Value.isNull : Value → Bool
  | .vNull => true
  | _ => false

/-- Rendering of a value inside an f-string (`str` conversion, abstracted). -/
def Value.pyStr : Value → String
  | .vNull => "None"
  | .vStr s => s
  | .vInt n => toString n
  | .vFloat r => r

/-- Declared column dtype of the pandera schemas in `get_table_schemas`. -/
inductive ColType where
  | cStr
  | cInt
  | cFloat
deriving DecidableEq, Repr

/-- `schema_column_type.__eq__(type(col_value))`: the runtime type of the
value equals the declared dtype. -/
def typeMatches : ColType → Value → Bool
  | .cStr, .vStr _ => true
  | .cInt, .vInt _ => true
  | .cFloat, .vFloat _ => true
  | _, _ => false

/-- One `pa.Column(...)` declaration. -/
structure ColumnSchema where
  colType : ColType
  nullable : Bool
deriving DecidableEq, Repr

/-- One `pa.DataFrameSchema`: named, with an ordered column mapping. -/
structure TableSchema where
  name : String
  columns : List (String × ColumnSchema)
deriving DecidableEq, Repr

/-- A dataframe row as `row._asdict()`: an ordered column-to-value mapping. -/
abbrev Row := List (String × Value)

/-- A reflected SQLAlchemy `Table`: its name and primary-key column names
(`table.primary_key.columns`). -/
structure SqlTable where
  name : String
  primaryKey : List String
deriving DecidableEq, Repr

/-- `errorHandler.errorRecord`. -/
structure ErrorRecord where
  recordid : Nat
  recordtype : String
  errors : String
  timestamp : String
deriving DecidableEq, Repr

/-- A committed row of a `raw_` table: payload plus capture timestamp. -/
structure RawRecord where
  table : String
  payload : Row
  timestamp : String
deriving DecidableEq, Repr

/-- A canonical table keyed by its primary-key value. -/
abbrev CanonicalTable := Value → Option Row

/-- Observable pipeline events, in program order. -/
inductive Event where
  | archiveAttempt (rawTableName : String)
  | rawWrite (rawTableName : String)
  | canonicalWrite (tableName : String) (key : Value)
  | errorLogged (recordtype : String)
  | flushWrite (records : List ErrorRecord)
deriving DecidableEq, Repr

def Event.isArchiveAttempt : Event → Bool
  | .archiveAttempt _ => true
  | _ => false

def Event.isCanonicalWrite : Event → Bool
  | .canonicalWrite _ _ => true
  | _ => false

def Event.isFlushWrite : Event → Bool
  | .flushWrite _ => true
  | _ => false

def countArch (tr : List Event) : Nat := (tr.filter Event.isArchiveAttempt).length

def countCanonW (tr : List Event) : Nat := (tr.filter Event.isCanonicalWrite).length

def countFlush (tr : List Event) : Nat := (tr.filter Event.isFlushWrite).length

/-- The mutable run state: fresh-uuid counter, wall clock, committed raw
records, the canonical tables keyed by table name, the in-memory error list
of the `errorHandler`, and the event trace. -/
structure PipeState where
  nextId : Nat
  clock : Nat
  raw : List RawRecord
  canonicals : String → CanonicalTable
  errors : List ErrorRecord
  trace : List Event

def initState : PipeState :=
  { nextId := 0, clock := 0, raw := [], canonicals := fun _ _ => none,
    errors := [], trace := [] }

/-- Rendering of the abstract clock as a timestamp string. -/
def nowStr (c : Nat) : String := "t" ++ toString c

/-- `errorHandler.add_error(uuid4(), recordtype, msg)`: logs synchronously and
appends an `errorRecord`; the record's timestamp is the dataclass default
`T0`, captured once at class-definition time, never the call-time clock. -/
def add_error (T0 : String) (recordtype msg : String) (s : PipeState) : PipeState :=
  { s with nextId := s.nextId + 1,
           errors := s.errors ++ [⟨s.nextId, recordtype, msg, T0⟩],
           trace := s.trace ++ [Event.errorLogged recordtype] }

/-- Outcome of a pandas `read_csv` call. -/
inductive ReadOutcome where
  | ok (rows : List Row)
  | exn (msg : String)

/-- Outcome of one SQLAlchemy `conn.execute` (plus commit) round trip. -/
inductive DbOutcome where
  | exn (msg : String)
  | ok (rowcount : Nat)
deriving DecidableEq, Repr

def readErrMsg (filePath e : String) : String :=
  "Error reading CSV file: " ++ filePath ++ ". Error: " ++ e

/-- `read_csv(file_path, error_handler)`: on any exception, one error record
tagged with the file path, and an empty dataframe. -/
def read_csv (T0 : String) (filePath : String) (outcome : ReadOutcome)
    (s : PipeState) : List Row × PipeState :=
  match outcome with
  | .ok rows => (rows, s)
  | .exn e => ([], add_error T0 filePath (readErrMsg filePath e) s)

def bulkErrMsg (schemaName e : String) : String :=
  "Error validating schema for " ++ schemaName ++ ": " ++ e

/-- `validate_schema(df, schema, error_handler)`: pandera's lazy validation,
abstracted by its outcome; a `SchemaErrors` exception is caught and turned
into a single aggregated error record. -/
def validate_schema (T0 : String) (schemaName : String) (outcome : Option String)
    (s : PipeState) : PipeState :=
  match outcome with
  | none => s
  | some e => add_error T0 schemaName (bulkErrMsg schemaName e) s

/-- Python `str.lower()` on a column header (character-wise lowering). -/
def pyLower (s : String) : String := String.mk (s.data.map Char.toLower)

/-- `df.columns = [col.lower() for col in df.columns]`, per row. -/
def lowerCols (r : Row) : Row := r.map (fun cv => (pyLower cv.1, cv.2))

/-- The loop body of `validate_row_data`: walks the row's columns, looks each
one up in `table_schema.dtypes` (`none` models the uncaught `KeyError` when a
row column is missing from the schema) and collects every `(column, value)`
pair that is neither a null in a nullable column nor type-correct. -/
def collectErrorFields (sch : TableSchema) : Row → Option (List (String × Value))
  | [] => some []
  | cv :: rest =>
    match sch.columns.lookup cv.1 with
    | none => none
    | some cs =>
      match collectErrorFields sch rest with
      | none => none
      | some tail =>
        if (cv.2.isNull && cs.nullable) || typeMatches cs.colType cv.2 then
          some tail
        else
          some (cv :: tail)

/-- Whether `validate_row_data` would return `True` for this row. -/
def rowValid (sch : TableSchema) (row : Row) : Bool :=
  match collectErrorFields sch row with
  | some [] => true
  | _ => false

/-- `row[0]`: the row's leading value (only evaluated on non-empty rows). -/
def rowLeading (row : Row) : Value := (row.headD ("", Value.vNull)).2

def pairStr (cv : String × Value) : String :=
  "(" ++ cv.1 ++ ", " ++ cv.2.pyStr ++ ")"

def fieldsStr (fields : List (String × Value)) : String :=
  "[" ++ String.intercalate ", " (fields.map pairStr) ++ "]"

def invalidFieldsMsg (leading : Value) (fields : List (String × Value)) : String :=
  "Invalid fields for columns in row " ++ leading.pyStr ++ ": " ++ fieldsStr fields

/-- `validate_row_data(row, table, table_schema, error_handler)`: `none` is
the uncaught `KeyError`; otherwise returns the validity verdict, adding one
error record (tagged with the canonical table name, naming the row's leading
value and the violation list) exactly when the list is non-empty. -/
def validate_row_data (T0 : String) (row : Row) (table : SqlTable)
    (sch : TableSchema) (s : PipeState) : Option (Bool × PipeState) :=
  match collectErrorFields sch row with
  | none => none
  | some [] => some (true, s)
  | some (f :: fs) =>
    some (false, add_error T0 table.name (invalidFieldsMsg (rowLeading row) (f :: fs)) s)

def rawErrMsg (tableName e : String) : String :=
  "Error saving data to raw table raw_" ++ tableName ++ ". Error: " ++ e

/-- `save_to_raw_data_table(row, table, conn, error_handler)`: inserts the
payload with a capture timestamp in its own transaction; any raised
exception is caught and becomes one error record tagged `table.name` (the
raw table's reflected name).  The post-commit `if not result:` guard tests
an always-truthy `CursorResult` and never raises, so a completed execute
that reports zero inserted rows commits no raw record and adds no error
record — its `raise Exception("No rows inserted into raw table.")` is dead
code. -/
def save_to_raw_data_table (T0 : String) (row : Row) (table : SqlTable)
    (outcome : DbOutcome) (s : PipeState) : PipeState :=
  let s := { s with trace := s.trace ++ [Event.archiveAttempt table.name] }
  let ts := nowStr s.clock
  let s := { s with clock := s.clock + 1 }
  match outcome with
  | .exn e => add_error T0 table.name (rawErrMsg table.name e) s
  | .ok 0 => s
  | .ok (_ + 1) =>
    { s with raw := s.raw ++ [⟨table.name, row, ts⟩],
             trace := s.trace ++ [Event.rawWrite table.name] }

def upsertErrMsg (leading : Value) (e : String) : String :=
  "Error inserting row " ++ leading.pyStr ++ ": " ++ e ++ "."

/-- `ON CONFLICT DO UPDATE SET update_fields`: every column of the stored
record that appears in the update mapping is overwritten with its new value. -/
def applyUpdate (old updates : Row) : Row :=
  old.map fun cv =>
    match updates.lookup cv.1 with
    | some v => (cv.1, v)
    | none => cv

/-- `del update_fields[primary_key]` (on uniquely named columns): drop the
primary-key column from the update mapping. -/
def eraseKey (pk : String) (r : Row) : Row := r.filter fun cv => cv.1 != pk

/-- The record stored at the conflict key: the full row when the key was
absent, otherwise the old record with all non-key columns overwritten. -/
def mergeOld (pk : String) (old : Option Row) (row : Row) : Row :=
  match old with
  | none => row
  | some v => applyUpdate v (eraseKey pk row)

/-- Effect of a committed upsert on the canonical table. -/
def tableUpsert (pk : String) (keyVal : Value) (row : Row) (t : CanonicalTable) :
    CanonicalTable :=
  fun k => if k = keyVal then some (mergeOld pk (t keyVal) row) else t k

/-- The except clause of `upsert_row`: one error record tagged with the
canonical table name, naming `row[0]` — unless the row is empty, in which
case formatting `row[0]` raises inside the except clause itself (`none`). -/
def upsertFail (T0 : String) (row : Row) (table : SqlTable) (s : PipeState)
    (e : String) : Option PipeState :=
  match row with
  | [] => none
  | _ => some (add_error T0 table.name (upsertErrMsg (rowLeading row) e) s)

/-- The execute/commit stage of `upsert_row`, after the primary key was
found in the row. -/
def upsert_core (T0 : String) (row : Row) (table : SqlTable) (pk : String)
    (keyVal : Value) (outcome : DbOutcome) (s : PipeState) : Option PipeState :=
  match outcome with
  | .exn e => upsertFail T0 row table s e
  | .ok 0 => upsertFail T0 row table s "Could not insert row."
  | .ok (_ + 1) =>
    some { s with
      canonicals := fun n =>
        if n = table.name then tableUpsert pk keyVal row (s.canonicals table.name)
        else s.canonicals n,
      trace := s.trace ++ [Event.canonicalWrite table.name keyVal] }

/-- The `del update_fields[primary_key]` stage of `upsert_row`: a `KeyError`
when the row lacks the primary-key column (caught by the except clause). -/
def upsert_withPk (T0 : String) (row : Row) (table : SqlTable) (pk : String)
    (outcome : DbOutcome) (s : PipeState) : Option PipeState :=
  match row.lookup pk with
  | none => upsertFail T0 row table s ("KeyError: " ++ pk)
  | some keyVal => upsert_core T0 row table pk keyVal outcome s

/-- `upsert_row(row, table, conn, error_handler)`: determines the first
primary-key column (`IndexError` when the reflected table has none), strips
it from the update mapping, and executes the insert-on-conflict-do-update;
every exception — including the pre-commit `raise` on a zero rowcount — is
handled by `upsertFail`. -/
def upsert_row (T0 : String) (row : Row) (table : SqlTable)
    (outcome : DbOutcome) (s : PipeState) : Option PipeState :=
  match table.primaryKey.head? with
  | none => upsertFail T0 row table s "IndexError"
  | some pk => upsert_withPk T0 row table pk outcome s

/-- The body of the row loop in `main`: archive write, then row validation,
then — only on a valid verdict — the canonical upsert. -/
def processRow (T0 : String) (rawTable table : SqlTable) (sch : TableSchema)
    (archOut upsOut : DbOutcome) (row : Row) (s : PipeState) : Option PipeState :=
  match validate_row_data T0 row table sch (save_to_raw_data_table T0 row rawTable archOut s) with
  | none => none
  | some (true, s₁) => upsert_row T0 row table upsOut s₁
  | some (false, s₁) => some s₁

/-- The row loop of `main`, with per-row-index DB outcome oracles. -/
def processRows (T0 : String) (rawTable table : SqlTable) (sch : TableSchema)
    (archOuts upsOuts : Nat → DbOutcome) :
    List Row → Nat → PipeState → Option PipeState
  | [], _, s => some s
  | row :: rest, i, s =>
    match processRow T0 rawTable table sch (archOuts i) (upsOuts i) row s with
    | none => none
    | some s => processRows T0 rawTable table sch archOuts upsOuts rest (i + 1) s

/-- The CSV path `main` reads for an entity. -/
def filePathFor (tableName : String) : String :=
  if tableName = "products" then "source-data/inventory.csv"
  else "source-data/" ++ tableName ++ ".csv"

def noDataMsg : String := "No data found in CSV file."

/-- Everything `main` consumes for one entity: its name, pandera schema, the
reflected canonical table's primary key, and the outcome oracles for the
external calls made while processing it. -/
structure EntityEnv where
  tableName : String
  schema : TableSchema
  pk : List String
  readOutcome : ReadOutcome
  bulkOutcome : Option String
  archOuts : Nat → DbOutcome
  upsOuts : Nat → DbOutcome

/-- One iteration of `main`'s entity loop: read, empty-dataset check, bulk
validation, then the per-row dual write (on the lower-cased columns). -/
def processEntity (T0 : String) (env : EntityEnv) (s : PipeState) : Option PipeState :=
  match read_csv T0 (filePathFor env.tableName) env.readOutcome s with
  | (df, s₁) =>
    if df.length = 0 then
      some (add_error T0 env.tableName noDataMsg s₁)
    else
      processRows T0 ⟨"raw_" ++ env.tableName, []⟩ ⟨env.tableName, env.pk⟩
        env.schema env.archOuts env.upsOuts (df.map lowerCols) 0
        (validate_schema T0 env.schema.name env.bulkOutcome s₁)

/-- `main`'s entity loop over all table schemas. -/
def processEntities (T0 : String) : List EntityEnv → PipeState → Option PipeState
  | [], s => some s
  | env :: rest, s =>
    match processEntity T0 env s with
    | none => none
    | some s => processEntities T0 rest s

/-- `errorHandler.save_errors(conn)`: when the in-memory list is non-empty,
writes every accumulated record in one transaction; nothing is caught here,
so a failing flush propagates (`Except.error`).  The in-memory list is not
cleared. -/
def save_errors (flushOutcome : Option String) (s : PipeState) :
    Except String PipeState :=
  if s.errors.isEmpty then .ok s
  else
    match flushOutcome with
    | some e => .error e
    | none => .ok { s with trace := s.trace ++ [Event.flushWrite s.errors] }

/-- `main` from the entity loop on: process every entity, then flush the
error handler exactly once.  `none` models a crash by an uncaught exception
inside the loop. -/
def runMain (T0 : String) (envs : List EntityEnv) (flushOutcome : Option String) :
    Option (Except String PipeState) :=
  (processEntities T0 envs initState).map (save_errors flushOutcome)

/-- Spec-side acceptance rule for one cell (§4.2 of the spec): the value is
acceptable exactly when the column is nullable and the value null, or the
value's runtime type equals the declared type. -/
def acceptable (cs : ColumnSchema) (v : Value) : Bool :=
  (cs.nullable && v.isNull) || typeMatches cs.colType v

/-- Spec-side list of violations: every `(column, value)` pair of the row
failing the acceptance rule (the `none` lookup branch is unreachable when the
code does not raise). -/
def specViolations (sch : TableSchema) (row : Row) : List (String × Value) :=
  row.filterMap fun cv =>
    match sch.columns.lookup cv.1 with
    | some cs => if acceptable cs cv.2 then none else some cv
    | none => some cv

/-- Success-path effect of one row on the entity's canonical table: the
upsert applies exactly when the row validates and carries the primary key. -/
def stepC (tbl : SqlTable) (sch : TableSchema) (row : Row) (t : CanonicalTable) :
    CanonicalTable :=
  match tbl.primaryKey.head? with
  | none => t
  | some pk =>
    if rowValid sch row then
      match row.lookup pk with
      | none => t
      | some keyVal => tableUpsert pk keyVal row t
    else t

/-- Success-path effect of the whole row loop on the canonical table. -/
def runC (tbl : SqlTable) (sch : TableSchema) (rows : List Row) (t : CanonicalTable) :
    CanonicalTable :=
  rows.foldl (fun t r => stepC tbl sch r t) t

/-- Whether a row performs a canonical write at key `k`. -/
def hits (tbl : SqlTable) (sch : TableSchema) (k : Value) (r : Row) : Bool :=
  match tbl.primaryKey.head? with
  | none => false
  | some pk => rowValid sch r && decide (r.lookup pk = some k)

/-- The successive merged records written at one key. -/
def chainC (pk : String) (v : Option Row) (rs : List Row) : Option Row :=
  rs.foldl (fun v r => some (mergeOld pk v r)) v

/-! Concrete sample data (the schemas of `get_table_schemas`, and the
scenario rows of the spec's §8) used by witnesses. -/

def sampleT0 : String := "class-def-time"

def okOuts : Nat → DbOutcome := fun _ => DbOutcome.ok 1

def productsSchema : TableSchema :=
  ⟨"products",
    [("productid", ⟨.cStr, false⟩), ("name", ⟨.cStr, false⟩),
     ("quantity", ⟨.cInt, false⟩), ("category", ⟨.cStr, false⟩),
     ("subcategory", ⟨.cStr, false⟩)]⟩

/-- The orders schema (its `datetime` column is a pattern-checked string;
the pattern only matters to pandera's bulk validation, which is oracle-
abstracted here). -/
def ordersSchema : TableSchema :=
  ⟨"orders",
    [("orderid", ⟨.cStr, false⟩), ("productid", ⟨.cStr, false⟩),
     ("currency", ⟨.cStr, false⟩), ("quantity", ⟨.cInt, false⟩),
     ("shippingcost", ⟨.cFloat, false⟩), ("amount", ⟨.cFloat, false⟩),
     ("channel", ⟨.cStr, false⟩), ("channelgroup", ⟨.cStr, false⟩),
     ("campaign", ⟨.cStr, true⟩), ("datetime", ⟨.cStr, false⟩)]⟩

def rawProductsT : SqlTable := ⟨"raw_products", []⟩

def productsT : SqlTable := ⟨"products", ["productid"]⟩

def prodRow1 : Row :=
  [("productid", .vStr "P1"), ("name", .vStr "Widget"), ("quantity", .vInt 10),
   ("category", .vStr "A"), ("subcategory", .vStr "A1")]

def prodRow2 : Row :=
  [("productid", .vStr "P1"), ("name", .vStr "Widget"), ("quantity", .vInt 15),
   ("category", .vStr "A"), ("subcategory", .vStr "A1")]

/-- A row whose `quantity` carries a string, violating the integer dtype. -/
def prodRowBad : Row :=
  [("productid", .vStr "P2"), ("name", .vStr "Widget"), ("quantity", .vStr "ten"),
   ("category", .vStr "A"), ("subcategory", .vStr "A1")]

def c8env : EntityEnv :=
  { tableName := "products", schema := productsSchema, pk := ["productid"],
    readOutcome := .ok [prodRow1, prodRow2], bulkOutcome := none,
    archOuts := okOuts, upsOuts := okOuts }

def c8run : PipeState := (processEntity sampleT0 c8env initState).getD initState

def c4run1 : PipeState := c8run

def c4run2 : PipeState := (processEntity sampleT0 c8env c4run1).getD initState

/-- An entity whose CSV read fails (e.g. an empty file: pandas raises). -/
def ordersReadFailEnv : EntityEnv :=
  { tableName := "orders", schema := ordersSchema, pk := ["orderid"],
    readOutcome := .exn "No columns to parse from file", bulkOutcome := none,
    archOuts := okOuts, upsOuts := okOuts }

def failRun : PipeState :=
  (processEntities sampleT0 [ordersReadFailEnv] initState).getD initState

def c2run : PipeState :=
  (processRow sampleT0 rawProductsT productsT productsSchema
    (.ok 1) (.ok 1) prodRowBad initState).getD initState

def dummyRec : ErrorRecord := ⟨0, "", "", ""⟩

def c5run : PipeState := (processEntity sampleT0 ordersReadFailEnv initState).getD initState

def flushedRun : PipeState :=
  { failRun with trace := failRun.trace ++ [Event.flushWrite failRun.errors] }

def prodHdr : List String :=
  ["productid", "name", "quantity", "category", "subcategory"]

/-- Between two states of the same run, every error record present in the
second but not the first carries the class-definition timestamp `T0`. -/
def ErrExt (T0 : String) (s t : PipeState) : Prop :=
  ∀ r ∈ t.errors, r ∈ s.errors ∨ r.timestamp = T0

/-! Helper lemmas. -/

theorem countArch_append (a b : List Event) :
    countArch (a ++ b) = countArch a + countArch b := by
  simp [countArch, List.filter_append]

theorem countCanonW_append (a b : List Event) :
    countCanonW (a ++ b) = countCanonW a + countCanonW b := by
  simp [countCanonW, List.filter_append]

theorem countFlush_append (a b : List Event) :
    countFlush (a ++ b) = countFlush a + countFlush b := by
  simp [countFlush, List.filter_append]

theorem errExt_refl (T0 : String) (s : PipeState) : ErrExt T0 s s :=
  fun _ hr => Or.inl hr

theorem errExt_trans {T0 : String} {s t u : PipeState}
    (h₁ : ErrExt T0 s t) (h₂ : ErrExt T0 t u) : ErrExt T0 s u :=
  fun r hr => (h₂ r hr).elim (fun h => h₁ r h) Or.inr

theorem errExt_add_error (T0 rt m : String) (s : PipeState) :
    ErrExt T0 s (add_error T0 rt m s) := by
  intro r hr
  simp only [add_error, List.mem_append, List.mem_singleton] at hr
  rcases hr with hr | hr
  · exact Or.inl hr
  · right; rw [hr]

theorem errExt_save_raw (T0 : String) (row : Row) (table : SqlTable)
    (o : DbOutcome) (s : PipeState) :
    ErrExt T0 s (save_to_raw_data_table T0 row table o s) := by
  cases o with
  | exn e =>
    intro r hr
    simp only [save_to_raw_data_table, add_error, List.mem_append,
      List.mem_singleton] at hr
    rcases hr with hr | hr
    · exact Or.inl hr
    · right; rw [hr]
  | ok rc =>
    cases rc with
    | zero => intro r hr; exact Or.inl hr
    | succ n => intro r hr; exact Or.inl hr

theorem errExt_validate {T0 : String} {row : Row} {tbl : SqlTable}
    {sch : TableSchema} {s : PipeState} {b : Bool} {s' : PipeState}
    (h : validate_row_data T0 row tbl sch s = some (b, s')) : ErrExt T0 s s' := by
  unfold validate_row_data at h
  cases hc : collectErrorFields sch row with
  | none => rw [hc] at h; exact absurd h (by simp)
  | some fields =>
    rw [hc] at h
    cases fields with
    | nil =>
      simp only [Option.some.injEq, Prod.mk.injEq] at h
      rw [← h.2]; exact errExt_refl T0 s
    | cons f fs =>
      simp only [Option.some.injEq, Prod.mk.injEq] at h
      rw [← h.2]; exact errExt_add_error T0 tbl.name _ s

theorem errExt_upsertFail {T0 : String} {row : Row} {tbl : SqlTable}
    {s s' : PipeState} {e : String}
    (h : upsertFail T0 row tbl s e = some s') : ErrExt T0 s s' := by
  unfold upsertFail at h
  cases row with
  | nil => exact absurd h (by simp)
  | cons a l =>
    simp only [Option.some.injEq] at h
    rw [← h]; exact errExt_add_error T0 tbl.name _ s

theorem errExt_upsert {T0 : String} {row : Row} {tbl : SqlTable}
    {o : DbOutcome} {s s' : PipeState}
    (h : upsert_row T0 row tbl o s = some s') : ErrExt T0 s s' := by
  unfold upsert_row upsert_withPk upsert_core at h
  repeat' split at h
  all_goals first
    | exact errExt_upsertFail h
    | · simp only [Option.some.injEq] at h
        rw [← h]; intro r hr; exact Or.inl hr

theorem errExt_processRow {T0 : String} {rT tbl : SqlTable} {sch : TableSchema}
    {aOut uOut : DbOutcome} {row : Row} {s s' : PipeState}
    (h : processRow T0 rT tbl sch aOut uOut row s = some s') : ErrExt T0 s s' := by
  unfold processRow at h
  have h₀ : ErrExt T0 s (save_to_raw_data_table T0 row rT aOut s) :=
    errExt_save_raw T0 row rT aOut s
  cases hv : validate_row_data T0 row tbl sch (save_to_raw_data_table T0 row rT aOut s) with
  | none => rw [hv] at h; exact absurd h (by simp)
  | some p =>
    rw [hv] at h
    rcases p with ⟨b, s₂⟩
    have h₁ := errExt_validate hv
    cases b with
    | true => exact errExt_trans h₀ (errExt_trans h₁ (errExt_upsert h))
    | false =>
      simp only [Option.some.injEq] at h
      rw [← h]; exact errExt_trans h₀ h₁

theorem errExt_processRows {T0 : String} {rT tbl : SqlTable} {sch : TableSchema}
    {aOuts uOuts : Nat → DbOutcome} :
    ∀ (rows : List Row) (i : Nat) (s s' : PipeState),
      processRows T0 rT tbl sch aOuts uOuts rows i s = some s' → ErrExt T0 s s' := by
  intro rows
  induction rows with
  | nil =>
    intro i s s' h
    simp only [processRows, Option.some.injEq] at h
    rw [← h]; exact errExt_refl T0 s
  | cons row rest ih =>
    intro i s s' h
    unfold processRows at h
    cases hr : processRow T0 rT tbl sch (aOuts i) (uOuts i) row s with
    | none => rw [hr] at h; exact absurd h (by simp)
    | some s₁ =>
      rw [hr] at h
      exact errExt_trans (errExt_processRow hr) (ih (i + 1) s₁ s' h)

theorem errExt_read_csv (T0 p : String) (o : ReadOutcome) (s : PipeState) :
    ErrExt T0 s (read_csv T0 p o s).2 := by
  cases o with
  | ok rows => exact errExt_refl T0 s
  | exn e => exact errExt_add_error T0 p _ s

theorem errExt_validate_schema (T0 n : String) (o : Option String) (s : PipeState) :
    ErrExt T0 s (validate_schema T0 n o s) := by
  cases o with
  | none => exact errExt_refl T0 s
  | some e => exact errExt_add_error T0 n _ s

theorem errExt_processEntity {T0 : String} {env : EntityEnv} {s s' : PipeState}
    (h : processEntity T0 env s = some s') : ErrExt T0 s s' := by
  unfold processEntity at h
  rcases hr : read_csv T0 (filePathFor env.tableName) env.readOutcome s with ⟨df, s₁⟩
  rw [hr] at h
  dsimp only at h
  have h₁ : ErrExt T0 s s₁ := by
    have := errExt_read_csv T0 (filePathFor env.tableName) env.readOutcome s
    rwa [hr] at this
  by_cases hd : df.length = 0
  · rw [if_pos hd] at h
    simp only [Option.some.injEq] at h
    rw [← h]; exact errExt_trans h₁ (errExt_add_error T0 env.tableName _ s₁)
  · rw [if_neg hd] at h
    exact errExt_trans h₁
      (errExt_trans (errExt_validate_schema T0 env.schema.name env.bulkOutcome s₁)
        (errExt_processRows _ 0 _ s' h))

theorem errExt_processEntities {T0 : String} :
    ∀ (envs : List EntityEnv) (s s' : PipeState),
      processEntities T0 envs s = some s' → ErrExt T0 s s' := by
  intro envs
  induction envs with
  | nil =>
    intro s s' h
    simp only [processEntities, Option.some.injEq] at h
    rw [← h]; exact errExt_refl T0 s
  | cons env rest ih =>
    intro s s' h
    unfold processEntities at h
    cases he : processEntity T0 env s with
    | none => rw [he] at h; exact absurd h (by simp)
    | some s₁ =>
      rw [he] at h
      exact errExt_trans (errExt_processEntity he) (ih s₁ s' h)

/-! Claim theorems. -/

/-- C10: `errorHandler.save_errors` does not remove records from the
in-memory errors list — after a successful flush the handler still holds
every accumulated record, so a second `save_errors` call on the same handler
inserts every record again (a second flush transaction carrying exactly the
same records). -/
theorem c10_save_errors_not_drained (s s' : PipeState)
    (h₁ : s.errors ≠ []) (h₂ : save_errors none s = .ok s') :
    s'.errors = s.errors ∧
    save_errors none s' =
      .ok { s' with trace := s'.trace ++ [Event.flushWrite s.errors] } := by
  have he : s.errors.isEmpty = false := by
    cases hs : s.errors with
    | nil => exact absurd hs h₁
    | cons a t => rfl
  unfold save_errors at h₂
  rw [he] at h₂
  simp only [Bool.false_eq_true, if_false, Option.some.injEq] at h₂
  simp only [Except.ok.injEq] at h₂
  subst h₂
  refine ⟨rfl, ?_⟩
  unfold save_errors
  rw [show ({ s with trace := s.trace ++ [Event.flushWrite s.errors] } : PipeState).errors.isEmpty = false from he]
  rfl

/-- C10 witness: a concrete flushed run still holds both of its error
records, and a second flush writes them again. -/
theorem c10_witness :
    flushedRun.errors = failRun.errors ∧
    save_errors none flushedRun =
      .ok { flushedRun with trace := flushedRun.trace ++ [Event.flushWrite failRun.errors] } :=
  c10_save_errors_not_drained failRun flushedRun (by decide) rfl

/-- C9: every error record accumulated during a run carries the same
timestamp — the dataclass default `str(datetime.now())` evaluated once at
class-definition time (`T0`) — so two `add_error` calls made at arbitrarily
different points of the run produce records with equal `timestamp` fields
that do not record when each failure occurred. -/
theorem c9_constant_error_timestamps (T0 : String) (envs : List EntityEnv)
    (s' : PipeState) (h : processEntities T0 envs initState = some s') :
    ∀ r₁, r₁ ∈ s'.errors → ∀ r₂, r₂ ∈ s'.errors →
      r₁.timestamp = T0 ∧ r₁.timestamp = r₂.timestamp := by
  have hx := errExt_processEntities envs initState s' h
  intro r₁ h₁ r₂ h₂
  have e₁ : r₁.timestamp = T0 := by
    rcases hx r₁ h₁ with hm | ht
    · exact absurd hm (by simp [initState])
    · exact ht
  have e₂ : r₂.timestamp = T0 := by
    rcases hx r₂ h₂ with hm | ht
    · exact absurd hm (by simp [initState])
    · exact ht
  exact ⟨e₁, e₁.trans e₂.symm⟩

theorem upsertFail_isSome (T0 : String) (row : Row) (tbl : SqlTable)
    (s : PipeState) (e : String) :
    (upsertFail T0 row tbl s e).isSome = !row.isEmpty := by
  cases row <;> rfl

theorem upsert_withPk_isSome_indep (T0 : String) (row : Row) (tbl : SqlTable)
    (pk : String) (o : DbOutcome) (s₁ s₂ : PipeState) :
    (upsert_withPk T0 row tbl pk o s₁).isSome
      = (upsert_withPk T0 row tbl pk o s₂).isSome := by
  unfold upsert_withPk
  cases hl : row.lookup pk with
  | none => simp only [upsertFail_isSome]
  | some keyVal =>
    unfold upsert_core
    cases o with
    | exn e => simp only [upsertFail_isSome]
    | ok rc =>
      cases rc with
      | zero => simp only [upsertFail_isSome]
      | succ n => rfl

theorem upsert_isSome_state_indep (T0 : String) (row : Row) (tbl : SqlTable)
    (o : DbOutcome) (s₁ s₂ : PipeState) :
    (upsert_row T0 row tbl o s₁).isSome = (upsert_row T0 row tbl o s₂).isSome := by
  unfold upsert_row
  cases tbl.primaryKey.head? with
  | none => simp only [upsertFail_isSome]
  | some pk => exact upsert_withPk_isSome_indep T0 row tbl pk o s₁ s₂

theorem processRow_isSome_arch_indep (T0 : String) (rT tbl : SqlTable)
    (sch : TableSchema) (uOut : DbOutcome) (row : Row) (s : PipeState)
    (o o' : DbOutcome) :
    (processRow T0 rT tbl sch o uOut row s).isSome
      = (processRow T0 rT tbl sch o' uOut row s).isSome := by
  unfold processRow validate_row_data
  cases hc : collectErrorFields sch row with
  | none => rfl
  | some fields =>
    cases fields with
    | nil =>
      dsimp only
      exact upsert_isSome_state_indep T0 row tbl uOut _ _
    | cons f fs => rfl

/-- C6: evaluation of the code at the failing input — an archive insert
whose execute completes reporting zero affected rows.  The claim (and the
code's own unreachable `raise Exception("No rows inserted into raw
table.")`, as well as the properly implemented rowcount check in
`upsert_row`) says exactly one error record tagged with the raw table name
is added; the program adds none, because `if not result:` tests an
always-truthy `CursorResult` and never fires.  The canonical tables are
untouched and the row's processing continues, but the failure is silently
dropped. -/
theorem c6_zero_rows_dead_guard :
    (save_to_raw_data_table sampleT0 prodRow2 rawProductsT (DbOutcome.ok 0) initState).errors.length
      = initState.errors.length ∧
    (save_to_raw_data_table sampleT0 prodRow2 rawProductsT (DbOutcome.ok 0) initState).canonicals
      = initState.canonicals ∧
    (processRow sampleT0 rawProductsT productsT productsSchema (DbOutcome.ok 0)
        (DbOutcome.ok 1) prodRow2 initState).isSome = true :=
  ⟨rfl, rfl, rfl⟩

theorem collect_eq_specViolations (sch : TableSchema) :
    ∀ (row : Row) (fields : List (String × Value)),
      collectErrorFields sch row = some fields → fields = specViolations sch row := by
  intro row
  induction row with
  | nil =>
    intro fields h
    simp only [collectErrorFields, Option.some.injEq] at h
    simp [specViolations, ← h]
  | cons cv rest ih =>
    intro fields h
    unfold collectErrorFields at h
    cases hl : sch.columns.lookup cv.1 with
    | none => rw [hl] at h; exact absurd h (by simp)
    | some cs =>
      rw [hl] at h
      cases hr : collectErrorFields sch rest with
      | none => rw [hr] at h; exact absurd h (by simp)
      | some tail =>
        rw [hr] at h
        dsimp only at h
        have htail := ih tail hr
        by_cases hacc : ((cv.2.isNull && cs.nullable) || typeMatches cs.colType cv.2) = true
        · rw [if_pos hacc] at h
          simp only [Option.some.injEq] at h
          subst h
          have ha : acceptable cs cv.2 = true := by
            unfold acceptable; rw [Bool.and_comm]; exact hacc
          simp only [specViolations, List.filterMap_cons, hl, ha]
          exact htail
        · rw [if_neg hacc] at h
          simp only [Option.some.injEq] at h
          subst h
          have ha : acceptable cs cv.2 = false := by
            unfold acceptable; rw [Bool.and_comm]
            exact Bool.not_eq_true _ ▸ (by simpa using hacc)
          simp only [specViolations, List.filterMap_cons, hl, ha, if_false,
            Bool.false_eq_true, List.cons.injEq, true_and]
          exact htail

/-- C3: `validate_row_data` accepts a cell exactly when the column is
nullable and the value null, or the runtime type matches the declared type
(the collected violation list equals the spec-side `specViolations`); when
the list is non-empty it adds exactly one error record tagged with the
table's name whose message names the row's leading value and the list, and
returns invalid; otherwise it adds nothing and returns valid. -/
theorem c3_validate_row_data (T0 : String) (row : Row) (table : SqlTable)
    (sch : TableSchema) (s : PipeState) (fields : List (String × Value))
    (h : collectErrorFields sch row = some fields) :
    fields = specViolations sch row ∧
    (fields = [] → validate_row_data T0 row table sch s = some (true, s)) ∧
    (fields ≠ [] → validate_row_data T0 row table sch s =
      some (false,
        { s with nextId := s.nextId + 1,
                 errors := s.errors ++
                   [⟨s.nextId, table.name, invalidFieldsMsg (rowLeading row) fields, T0⟩],
                 trace := s.trace ++ [Event.errorLogged table.name] })) := by
  refine ⟨collect_eq_specViolations sch row fields h, ?_, ?_⟩
  · intro hnil
    subst hnil
    unfold validate_row_data
    rw [h]
  · intro hne
    cases fields with
    | nil => exact absurd rfl hne
    | cons f fs =>
      unfold validate_row_data
      rw [h]
      rfl

/-- C3 witness: the spec scenario row with `quantity="ten"` yields exactly
the violation list `[("quantity", "ten")]`, one error record, and an invalid
verdict. -/
theorem c3_witness :
    [(("quantity" : String), Value.vStr "ten")] = specViolations productsSchema prodRowBad ∧
    ([(("quantity" : String), Value.vStr "ten")] = ([] : List (String × Value)) →
      validate_row_data sampleT0 prodRowBad productsT productsSchema initState
        = some (true, initState)) ∧
    ([(("quantity" : String), Value.vStr "ten")] ≠ ([] : List (String × Value)) →
      validate_row_data sampleT0 prodRowBad productsT productsSchema initState =
        some (false,
          { initState with nextId := initState.nextId + 1,
                           errors := initState.errors ++
                             [⟨initState.nextId, productsT.name,
                               invalidFieldsMsg (rowLeading prodRowBad)
                                 [(("quantity" : String), Value.vStr "ten")], sampleT0⟩],
                           trace := initState.trace ++ [Event.errorLogged productsT.name] })) :=
  c3_validate_row_data sampleT0 prodRowBad productsT productsSchema initState
    [(("quantity" : String), Value.vStr "ten")] rfl

theorem save_raw_cases (T0 : String) (row : Row) (table : SqlTable)
    (o : DbOutcome) (s : PipeState) :
    ((save_to_raw_data_table T0 row table o s).trace
        = s.trace ++ [Event.archiveAttempt table.name, Event.rawWrite table.name] ∧
      (save_to_raw_data_table T0 row table o s).raw
        = s.raw ++ [⟨table.name, row, nowStr s.clock⟩] ∧
      (save_to_raw_data_table T0 row table o s).errors = s.errors)
    ∨ (∃ m, (save_to_raw_data_table T0 row table o s).trace
        = s.trace ++ [Event.archiveAttempt table.name, Event.errorLogged table.name] ∧
      (save_to_raw_data_table T0 row table o s).raw = s.raw ∧
      (save_to_raw_data_table T0 row table o s).errors
        = s.errors ++ [⟨s.nextId, table.name, m, T0⟩])
    ∨ (o = DbOutcome.ok 0 ∧
      (save_to_raw_data_table T0 row table o s).trace
        = s.trace ++ [Event.archiveAttempt table.name] ∧
      (save_to_raw_data_table T0 row table o s).raw = s.raw ∧
      (save_to_raw_data_table T0 row table o s).errors = s.errors) := by
  cases o with
  | exn e =>
    right; left
    exact ⟨rawErrMsg table.name e, by simp [save_to_raw_data_table, add_error], rfl, rfl⟩
  | ok rc =>
    cases rc with
    | zero =>
      right; right
      exact ⟨rfl, rfl, rfl, rfl⟩
    | succ n =>
      left
      exact ⟨by simp [save_to_raw_data_table], rfl, rfl⟩

theorem countArch_save (T0 : String) (row : Row) (table : SqlTable)
    (o : DbOutcome) (s : PipeState) :
    countArch (save_to_raw_data_table T0 row table o s).trace = countArch s.trace + 1 := by
  rcases save_raw_cases T0 row table o s
      with ⟨ht, _, _⟩ | ⟨m, ht, _, _⟩ | ⟨_, ht, _, _⟩ <;>
    rw [ht, countArch_append] <;> rfl

theorem countArch_add_error (T0 rt m : String) (s : PipeState) :
    countArch (add_error T0 rt m s).trace = countArch s.trace := by
  simp only [add_error]
  rw [countArch_append]
  rfl

theorem countArch_validate {T0 : String} {row : Row} {tbl : SqlTable}
    {sch : TableSchema} {s : PipeState} {b : Bool} {s' : PipeState}
    (h : validate_row_data T0 row tbl sch s = some (b, s')) :
    countArch s'.trace = countArch s.trace := by
  unfold validate_row_data at h
  cases hc : collectErrorFields sch row with
  | none => rw [hc] at h; exact absurd h (by simp)
  | some fields =>
    rw [hc] at h
    cases fields with
    | nil =>
      simp only [Option.some.injEq, Prod.mk.injEq] at h
      rw [← h.2]
    | cons f fs =>
      simp only [Option.some.injEq, Prod.mk.injEq] at h
      rw [← h.2]
      exact countArch_add_error T0 tbl.name _ s

theorem countArch_upsertFail {T0 : String} {row : Row} {tbl : SqlTable}
    {s s' : PipeState} {e : String}
    (h : upsertFail T0 row tbl s e = some s') :
    countArch s'.trace = countArch s.trace := by
  unfold upsertFail at h
  cases row with
  | nil => exact absurd h (by simp)
  | cons a l =>
    simp only [Option.some.injEq] at h
    rw [← h]
    exact countArch_add_error T0 tbl.name _ s

theorem countArch_upsert {T0 : String} {row : Row} {tbl : SqlTable}
    {o : DbOutcome} {s s' : PipeState}
    (h : upsert_row T0 row tbl o s = some s') :
    countArch s'.trace = countArch s.trace := by
  unfold upsert_row upsert_withPk upsert_core at h
  repeat' split at h
  all_goals first
    | exact countArch_upsertFail h
    | · simp only [Option.some.injEq] at h
        rw [← h]
        simp only [countArch_append]
        rfl

theorem countArch_processRow {T0 : String} {rT tbl : SqlTable} {sch : TableSchema}
    {aOut uOut : DbOutcome} {row : Row} {s s' : PipeState}
    (h : processRow T0 rT tbl sch aOut uOut row s = some s') :
    countArch s'.trace = countArch s.trace + 1 := by
  unfold processRow at h
  cases hv : validate_row_data T0 row tbl sch (save_to_raw_data_table T0 row rT aOut s) with
  | none => rw [hv] at h; exact absurd h (by simp)
  | some p =>
    rw [hv] at h
    rcases p with ⟨b, s₂⟩
    have h₂ : countArch s₂.trace = countArch s.trace + 1 :=
      (countArch_validate hv).trans (countArch_save T0 row rT aOut s)
    cases b with
    | true => exact (countArch_upsert h).trans h₂
    | false =>
      simp only [Option.some.injEq] at h
      rw [← h]
      exact h₂

theorem countArch_processRows {T0 : String} {rT tbl : SqlTable} {sch : TableSchema}
    {aOuts uOuts : Nat → DbOutcome} :
    ∀ (rows : List Row) (i : Nat) (s s' : PipeState),
      processRows T0 rT tbl sch aOuts uOuts rows i s = some s' →
      countArch s'.trace = countArch s.trace + rows.length := by
  intro rows
  induction rows with
  | nil =>
    intro i s s' h
    simp only [processRows, Option.some.injEq] at h
    rw [← h]
    simp
  | cons row rest ih =>
    intro i s s' h
    unfold processRows at h
    cases hr : processRow T0 rT tbl sch (aOuts i) (uOuts i) row s with
    | none => rw [hr] at h; exact absurd h (by simp)
    | some s₁ =>
      rw [hr] at h
      rw [ih (i + 1) s₁ s' h, countArch_processRow hr, List.length_cons]
      omega

theorem countArch_validate_schema (T0 n : String) (o : Option String) (s : PipeState) :
    countArch (validate_schema T0 n o s).trace = countArch s.trace := by
  cases o with
  | none => rfl
  | some e => exact countArch_add_error T0 n _ s

/-- C1: evaluation of the code at the failing input — an archive insert
whose execute completes reporting zero affected rows.  The one archive
attempt is made (the attempt count itself holds in every branch, see
`countArch_save`), but it produces neither a raw record nor an error
record: the `if not result:` guard of `save_to_raw_data_table` tests an
always-truthy `CursorResult` and never raises, contradicting the claim's
either-a-Raw-Record-or-an-Error-Record, never-neither guarantee that the
code's own dead `raise` was meant to uphold. -/
theorem c1_zero_rows_archive_neither :
    (save_to_raw_data_table sampleT0 prodRow1 rawProductsT (DbOutcome.ok 0) initState).trace
      = initState.trace ++ [Event.archiveAttempt rawProductsT.name] ∧
    (save_to_raw_data_table sampleT0 prodRow1 rawProductsT (DbOutcome.ok 0) initState).raw
      = initState.raw ∧
    (save_to_raw_data_table sampleT0 prodRow1 rawProductsT (DbOutcome.ok 0) initState).errors
      = initState.errors :=
  ⟨rfl, rfl, rfl⟩

theorem save_raw_canonicals (T0 : String) (row : Row) (table : SqlTable)
    (o : DbOutcome) (s : PipeState) :
    (save_to_raw_data_table T0 row table o s).canonicals = s.canonicals := by
  cases o with
  | exn e => rfl
  | ok rc => cases rc with
    | zero => rfl
    | succ n => rfl

theorem countCanonW_add_error (T0 rt m : String) (s : PipeState) :
    countCanonW (add_error T0 rt m s).trace = countCanonW s.trace := by
  simp only [add_error]
  rw [countCanonW_append]
  rfl

theorem countCanonW_save (T0 : String) (row : Row) (table : SqlTable)
    (o : DbOutcome) (s : PipeState) :
    countCanonW (save_to_raw_data_table T0 row table o s).trace = countCanonW s.trace := by
  rcases save_raw_cases T0 row table o s
      with ⟨ht, _, _⟩ | ⟨m, ht, _, _⟩ | ⟨_, ht, _, _⟩ <;>
    rw [ht, countCanonW_append] <;> rfl

theorem upsert_trace_delta {T0 : String} {row : Row} {tbl : SqlTable}
    {o : DbOutcome} {s s' : PipeState}
    (h : upsert_row T0 row tbl o s = some s') :
    ∃ d, s'.trace = s.trace ++ d := by
  unfold upsert_row upsert_withPk upsert_core upsertFail at h
  repeat' split at h
  all_goals first
    | exact Option.noConfusion h
    | (simp only [Option.some.injEq] at h; rw [← h]; exact ⟨_, rfl⟩)

/-- C2: within one row of the loop, the canonical upsert is invoked exactly
when `validate_row_data` returned valid (on a valid row the final state is
literally the `upsert_row` continuation of the archive-write state; on an
invalid row the canonical tables are untouched and no canonical-write event
occurs), and the archive attempt is the first event the row adds — it
precedes any canonical write of that row. -/
theorem c2_upsert_iff_valid (T0 : String) (rT tbl : SqlTable) (sch : TableSchema)
    (aOut uOut : DbOutcome) (row : Row) (s s' : PipeState)
    (h : processRow T0 rT tbl sch aOut uOut row s = some s') :
    (rowValid sch row = true →
      some s' = upsert_row T0 row tbl uOut (save_to_raw_data_table T0 row rT aOut s)) ∧
    (rowValid sch row = false →
      s'.canonicals = s.canonicals ∧ countCanonW s'.trace = countCanonW s.trace) ∧
    ∃ d, s'.trace = s.trace ++ Event.archiveAttempt rT.name :: d := by
  unfold processRow validate_row_data at h
  cases hc : collectErrorFields sch row with
  | none => rw [hc] at h; exact absurd h (by simp)
  | some fields =>
    rw [hc] at h
    cases fields with
    | nil =>
      dsimp only at h
      refine ⟨fun _ => h.symm, fun hf => ?_, ?_⟩
      · rw [show rowValid sch row = true by simp [rowValid, hc]] at hf
        exact absurd hf (by simp)
      · obtain ⟨d, hd⟩ := upsert_trace_delta h
        rcases save_raw_cases T0 row rT aOut s
            with ⟨ht, _, _⟩ | ⟨m, ht, _, _⟩ | ⟨_, ht, _, _⟩
        · exact ⟨Event.rawWrite rT.name :: d, by rw [hd, ht]; simp⟩
        · exact ⟨Event.errorLogged rT.name :: d, by rw [hd, ht]; simp⟩
        · exact ⟨d, by rw [hd, ht]; simp⟩
    | cons f fs =>
      dsimp only at h
      simp only [Option.some.injEq] at h
      rw [← h]
      refine ⟨fun ht => ?_, fun _ => ⟨?_, ?_⟩, ?_⟩
      · rw [show rowValid sch row = false by simp [rowValid, hc]] at ht
        exact absurd ht (by simp)
      · rw [show (add_error T0 tbl.name
            (invalidFieldsMsg (rowLeading row) (f :: fs))
            (save_to_raw_data_table T0 row rT aOut s)).canonicals
            = (save_to_raw_data_table T0 row rT aOut s).canonicals from rfl]
        exact save_raw_canonicals T0 row rT aOut s
      · rw [countCanonW_add_error]
        exact countCanonW_save T0 row rT aOut s
      · rcases save_raw_cases T0 row rT aOut s
            with ⟨ht, _, _⟩ | ⟨m, ht, _, _⟩ | ⟨_, ht, _, _⟩
        · exact ⟨[Event.rawWrite rT.name, Event.errorLogged tbl.name],
            by simp [add_error, ht]⟩
        · exact ⟨[Event.errorLogged rT.name, Event.errorLogged tbl.name],
            by simp [add_error, ht]⟩
        · exact ⟨[Event.errorLogged tbl.name], by simp [add_error, ht]⟩

theorem filePathFor_ne (t : String) : filePathFor t ≠ t := by
  unfold filePathFor
  by_cases h : t = "products"
  · rw [if_pos h, h]
    decide
  · rw [if_neg h]
    intro heq
    have hlen := congrArg String.length heq
    rw [String.length_append, String.length_append,
      show ("source-data/" : String).length = 12 from rfl,
      show (".csv" : String).length = 4 from rfl] at hlen
    omega

/-- C5: an empty or unreadable input file for an entity produces exactly one
error record tagged with that entity's table name (the unreadable case also
adds the file-path-tagged read error the spec describes separately), no raw
record, no canonical change, and no archive or canonical-write event: the
entity is skipped before any row processing. -/
theorem c5_empty_or_unreadable (T0 : String) (env : EntityEnv) (s s' : PipeState)
    (hro : (∃ m, env.readOutcome = ReadOutcome.exn m) ∨ env.readOutcome = ReadOutcome.ok [])
    (h : processEntity T0 env s = some s') :
    (s'.errors.filter (fun r => r.recordtype == env.tableName)).length
      = (s.errors.filter (fun r => r.recordtype == env.tableName)).length + 1 ∧
    s'.raw = s.raw ∧ s'.canonicals = s.canonicals ∧
    countArch s'.trace = countArch s.trace ∧
    countCanonW s'.trace = countCanonW s.trace ∧
    ((∃ m, env.readOutcome = ReadOutcome.exn m) →
      ∃ m, s'.errors = s.errors ++
        [⟨s.nextId, filePathFor env.tableName, readErrMsg (filePathFor env.tableName) m, T0⟩,
         ⟨s.nextId + 1, env.tableName, noDataMsg, T0⟩]) ∧
    (env.readOutcome = ReadOutcome.ok [] →
      s'.errors = s.errors ++ [⟨s.nextId, env.tableName, noDataMsg, T0⟩]) := by
  have hbe : (filePathFor env.tableName == env.tableName) = false :=
    beq_eq_false_iff_ne.mpr (filePathFor_ne env.tableName)
  have hbt : (env.tableName == env.tableName) = true := beq_self_eq_true env.tableName
  rcases hro with ⟨m, hro⟩ | hro
  · unfold processEntity at h
    rw [hro] at h
    dsimp only [read_csv] at h
    rw [if_pos (show (([] : List Row)).length = 0 from rfl)] at h
    simp only [Option.some.injEq] at h
    rw [← h]
    refine ⟨?_, rfl, rfl, ?_, ?_, fun _ => ⟨m, ?_⟩, fun hc => ?_⟩
    · simp [add_error, List.filter_append, List.filter, hbe, hbt]
    · simp only [add_error]
      rw [countArch_append, countArch_append]
      rfl
    · simp only [add_error]
      rw [countCanonW_append, countCanonW_append]
      rfl
    · simp [add_error]
    · rw [hro] at hc
      exact absurd hc (by simp)
  · unfold processEntity at h
    rw [hro] at h
    dsimp only [read_csv] at h
    rw [if_pos (show (([] : List Row)).length = 0 from rfl)] at h
    simp only [Option.some.injEq] at h
    rw [← h]
    refine ⟨?_, rfl, rfl, ?_, ?_, fun hc => ?_, fun _ => ?_⟩
    · simp [add_error, List.filter_append, List.filter, hbt]
    · exact countArch_add_error T0 env.tableName noDataMsg s
    · exact countCanonW_add_error T0 env.tableName noDataMsg s
    · obtain ⟨m, hm⟩ := hc
      rw [hro] at hm
      exact absurd hm (by simp)
    · simp [add_error]

theorem countFlush_add_error (T0 rt m : String) (s : PipeState) :
    countFlush (add_error T0 rt m s).trace = countFlush s.trace := by
  simp only [add_error]
  rw [countFlush_append]
  rfl

theorem countFlush_save (T0 : String) (row : Row) (table : SqlTable)
    (o : DbOutcome) (s : PipeState) :
    countFlush (save_to_raw_data_table T0 row table o s).trace = countFlush s.trace := by
  rcases save_raw_cases T0 row table o s
      with ⟨ht, _, _⟩ | ⟨m, ht, _, _⟩ | ⟨_, ht, _, _⟩ <;>
    rw [ht, countFlush_append] <;> rfl

theorem countFlush_validate {T0 : String} {row : Row} {tbl : SqlTable}
    {sch : TableSchema} {s : PipeState} {b : Bool} {s' : PipeState}
    (h : validate_row_data T0 row tbl sch s = some (b, s')) :
    countFlush s'.trace = countFlush s.trace := by
  unfold validate_row_data at h
  cases hc : collectErrorFields sch row with
  | none => rw [hc] at h; exact absurd h (by simp)
  | some fields =>
    rw [hc] at h
    cases fields with
    | nil =>
      simp only [Option.some.injEq, Prod.mk.injEq] at h
      rw [← h.2]
    | cons f fs =>
      simp only [Option.some.injEq, Prod.mk.injEq] at h
      rw [← h.2]
      exact countFlush_add_error T0 tbl.name _ s

theorem countFlush_upsertFail {T0 : String} {row : Row} {tbl : SqlTable}
    {s s' : PipeState} {e : String}
    (h : upsertFail T0 row tbl s e = some s') :
    countFlush s'.trace = countFlush s.trace := by
  unfold upsertFail at h
  cases row with
  | nil => exact absurd h (by simp)
  | cons a l =>
    simp only [Option.some.injEq] at h
    rw [← h]
    exact countFlush_add_error T0 tbl.name _ s

theorem countFlush_upsert {T0 : String} {row : Row} {tbl : SqlTable}
    {o : DbOutcome} {s s' : PipeState}
    (h : upsert_row T0 row tbl o s = some s') :
    countFlush s'.trace = countFlush s.trace := by
  unfold upsert_row upsert_withPk upsert_core at h
  repeat' split at h
  all_goals first
    | exact countFlush_upsertFail h
    | · simp only [Option.some.injEq] at h
        rw [← h]
        simp only [countFlush_append]
        rfl

theorem countFlush_processRow {T0 : String} {rT tbl : SqlTable} {sch : TableSchema}
    {aOut uOut : DbOutcome} {row : Row} {s s' : PipeState}
    (h : processRow T0 rT tbl sch aOut uOut row s = some s') :
    countFlush s'.trace = countFlush s.trace := by
  unfold processRow at h
  cases hv : validate_row_data T0 row tbl sch (save_to_raw_data_table T0 row rT aOut s) with
  | none => rw [hv] at h; exact absurd h (by simp)
  | some p =>
    rw [hv] at h
    rcases p with ⟨b, s₂⟩
    have h₂ : countFlush s₂.trace = countFlush s.trace :=
      (countFlush_validate hv).trans (countFlush_save T0 row rT aOut s)
    cases b with
    | true => exact (countFlush_upsert h).trans h₂
    | false =>
      simp only [Option.some.injEq] at h
      rw [← h]
      exact h₂

theorem countFlush_processRows {T0 : String} {rT tbl : SqlTable} {sch : TableSchema}
    {aOuts uOuts : Nat → DbOutcome} :
    ∀ (rows : List Row) (i : Nat) (s s' : PipeState),
      processRows T0 rT tbl sch aOuts uOuts rows i s = some s' →
      countFlush s'.trace = countFlush s.trace := by
  intro rows
  induction rows with
  | nil =>
    intro i s s' h
    simp only [processRows, Option.some.injEq] at h
    rw [← h]
  | cons row rest ih =>
    intro i s s' h
    unfold processRows at h
    cases hr : processRow T0 rT tbl sch (aOuts i) (uOuts i) row s with
    | none => rw [hr] at h; exact absurd h (by simp)
    | some s₁ =>
      rw [hr] at h
      exact (ih (i + 1) s₁ s' h).trans (countFlush_processRow hr)

theorem countFlush_processEntity {T0 : String} {env : EntityEnv} {s s' : PipeState}
    (h : processEntity T0 env s = some s') :
    countFlush s'.trace = countFlush s.trace := by
  unfold processEntity at h
  rcases hr : read_csv T0 (filePathFor env.tableName) env.readOutcome s with ⟨df, s₁⟩
  rw [hr] at h
  dsimp only at h
  have h₁ : countFlush s₁.trace = countFlush s.trace := by
    cases ho : env.readOutcome with
    | ok rows =>
      rw [ho] at hr
      cases hr
      rfl
    | exn m =>
      rw [ho] at hr
      unfold read_csv at hr
      cases hr
      exact countFlush_add_error T0 _ _ s
  by_cases hd : df.length = 0
  · rw [if_pos hd] at h
    simp only [Option.some.injEq] at h
    rw [← h]
    exact (countFlush_add_error T0 env.tableName noDataMsg s₁).trans h₁
  · rw [if_neg hd] at h
    refine ((countFlush_processRows _ 0 _ s' h).trans ?_).trans h₁
    cases env.bulkOutcome with
    | none => rfl
    | some e => exact countFlush_add_error T0 env.schema.name _ s₁

theorem countFlush_processEntities {T0 : String} :
    ∀ (envs : List EntityEnv) (s s' : PipeState),
      processEntities T0 envs s = some s' →
      countFlush s'.trace = countFlush s.trace := by
  intro envs
  induction envs with
  | nil =>
    intro s s' h
    simp only [processEntities, Option.some.injEq] at h
    rw [← h]
  | cons env rest ih =>
    intro s s' h
    unfold processEntities at h
    cases he : processEntity T0 env s with
    | none => rw [he] at h; exact absurd h (by simp)
    | some s₁ =>
      rw [he] at h
      exact (ih s₁ s' h).trans (countFlush_processEntity he)

/-- C7: no flush happens while entities are processed — the single
`save_errors` call comes after all of them, appending the one flush
transaction that writes every accumulated error record — and when the flush
itself fails the exception propagates out of `main` instead of being caught
and logged. -/
theorem c7_flush_once_after_entities (T0 : String) (envs : List EntityEnv)
    (s' : PipeState) (h : processEntities T0 envs initState = some s') :
    countFlush s'.trace = 0 ∧
    (∀ e, s'.errors ≠ [] → runMain T0 envs (some e) = some (Except.error e)) ∧
    (s'.errors ≠ [] →
      runMain T0 envs none =
        some (Except.ok { s' with trace := s'.trace ++ [Event.flushWrite s'.errors] })) ∧
    (s'.errors = [] → runMain T0 envs none = some (Except.ok s')) := by
  have hne : ∀ (hn : s'.errors ≠ []), s'.errors.isEmpty = false := by
    intro hn
    cases hs : s'.errors with
    | nil => exact absurd hs hn
    | cons a t => rfl
  refine ⟨?_, ?_, ?_, ?_⟩
  · exact (countFlush_processEntities envs initState s' h).trans rfl
  · intro e hn
    unfold runMain
    rw [h]
    rw [Option.map_some']
    unfold save_errors
    rw [hne hn]
    rfl
  · intro hn
    unfold runMain
    rw [h]
    rw [Option.map_some']
    unfold save_errors
    rw [hne hn]
    rfl
  · intro hn
    unfold runMain
    rw [h]
    rw [Option.map_some']
    unfold save_errors
    rw [show s'.errors.isEmpty = true by rw [hn]; rfl]
    rfl

theorem lookup_cons_ite (a k : String) (v : Value) (l : Row) :
    List.lookup a ((k, v) :: l) = if a = k then some v else List.lookup a l := by
  rw [List.lookup_cons]
  by_cases h : a = k
  · simp [h]
  · rw [show (a == k) = false from beq_eq_false_iff_ne.mpr h, if_neg h]

theorem lookup_eraseKey (pk c : String) :
    ∀ r : Row, (eraseKey pk r).lookup c = if c = pk then none else r.lookup c := by
  intro r
  induction r with
  | nil =>
    by_cases hc : c = pk <;> simp [eraseKey, hc]
  | cons a t ih =>
    obtain ⟨k, v⟩ := a
    by_cases hk : k = pk
    · rw [show eraseKey pk ((k, v) :: t) = eraseKey pk t by
        simp [eraseKey, List.filter_cons, hk]]
      rw [ih, lookup_cons_ite]
      by_cases hc : c = pk
      · simp [hc]
      · rw [if_neg hc, if_neg hc, if_neg (fun hck => hc (hk ▸ hck))]
    · rw [show eraseKey pk ((k, v) :: t) = (k, v) :: eraseKey pk t by
        simp [eraseKey, List.filter_cons, hk]]
      rw [lookup_cons_ite, lookup_cons_ite, ih]
      by_cases hc : c = k
      · rw [if_pos hc, if_pos hc, if_neg (fun hcp => hk (hc ▸ hcp : (k : String) = pk))]
      · rw [if_neg hc, if_neg hc]

theorem lookup_isSome_mem (c : String) :
    ∀ r : Row, ((r.lookup c).isSome = true) ↔ c ∈ r.map Prod.fst := by
  intro r
  induction r with
  | nil => simp
  | cons a t ih =>
    obtain ⟨k, v⟩ := a
    rw [lookup_cons_ite]
    by_cases hc : c = k
    · simp [hc]
    · simp only [if_neg hc, List.map_cons, List.mem_cons]
      rw [ih]
      exact ⟨Or.inr, fun h => h.elim (fun hh => absurd hh hc) id⟩

theorem lookup_nodup_mem :
    ∀ r : Row, (r.map Prod.fst).Nodup → ∀ cv ∈ r, r.lookup cv.1 = some cv.2 := by
  intro r
  induction r with
  | nil => intro _ cv hcv; exact absurd hcv (by simp)
  | cons a t ih =>
    intro hnd cv hcv
    obtain ⟨k, v⟩ := a
    rw [List.map_cons, List.nodup_cons] at hnd
    rcases List.mem_cons.mp hcv with hcv | hcv
    · rw [hcv, lookup_cons_ite, if_pos rfl]
    · have hck : cv.1 ≠ k := by
        intro hck
        have hmem : cv.1 ∈ List.map Prod.fst t := List.mem_map_of_mem Prod.fst hcv
        rw [hck] at hmem
        exact hnd.1 hmem
      rw [lookup_cons_ite, if_neg hck]
      exact ih hnd.2 cv hcv

theorem applyUpdate_keys (old u : Row) :
    (applyUpdate old u).map Prod.fst = old.map Prod.fst := by
  unfold applyUpdate
  rw [List.map_map]
  apply List.map_congr_left
  intro cv _
  simp only [Function.comp_apply]
  cases hx : u.lookup cv.1 <;> simp [hx]

theorem applyUpdate_collapse (old u v : Row)
    (hk : ∀ c, (u.lookup c).isSome = (v.lookup c).isSome) :
    applyUpdate (applyUpdate old u) v = applyUpdate old v := by
  unfold applyUpdate
  rw [List.map_map]
  apply List.map_congr_left
  intro cv _
  simp only [Function.comp_apply]
  cases hv : v.lookup cv.1 with
  | some y => cases hu : u.lookup cv.1 <;> simp [hu, hv]
  | none =>
    have hu : u.lookup cv.1 = none := by
      have h := hk cv.1
      rw [hv] at h
      cases hu : u.lookup cv.1
      · rfl
      · rw [hu] at h; simp at h
    simp [hu, hv]

theorem applyUpdate_idem (old u : Row) :
    applyUpdate (applyUpdate old u) u = applyUpdate old u :=
  applyUpdate_collapse old u u (fun _ => rfl)

theorem applyUpdate_self (pk : String) (r : Row) (hnd : (r.map Prod.fst).Nodup) :
    applyUpdate r (eraseKey pk r) = r := by
  have hcv : ∀ cv ∈ r,
      (match (eraseKey pk r).lookup cv.1 with
        | some v => (cv.1, v)
        | none => cv) = cv := by
    intro cv hcv
    rw [lookup_eraseKey]
    by_cases hc : cv.1 = pk
    · simp [hc]
    · rw [if_neg hc, lookup_nodup_mem r hnd cv hcv]
  unfold applyUpdate
  calc r.map _ = r.map id := List.map_congr_left hcv
    _ = r := List.map_id r

theorem eraseKey_isSome_eq {hdr : List String} (pk : String) (a b : Row)
    (ha : a.map Prod.fst = hdr) (hb : b.map Prod.fst = hdr) (c : String) :
    ((eraseKey pk a).lookup c).isSome = ((eraseKey pk b).lookup c).isSome := by
  rw [lookup_eraseKey, lookup_eraseKey]
  by_cases hc : c = pk
  · simp [hc]
  · rw [if_neg hc, if_neg hc]
    have h1 := lookup_isSome_mem c a
    have h2 := lookup_isSome_mem c b
    rw [ha] at h1
    rw [hb] at h2
    cases hA : (a.lookup c).isSome <;> cases hB : (b.lookup c).isSome <;> simp_all

theorem chainC_concat (pk : String) (v : Option Row) (rs : List Row) (r : Row) :
    chainC pk v (rs ++ [r]) = some (mergeOld pk (chainC pk v rs) r) := by
  simp [chainC, List.foldl_append]

theorem chainC_some_concat {hdr : List String} (pk : String) :
    ∀ (rs : List Row) (r : Row) (x : Row),
      (∀ q ∈ rs ++ [r], q.map Prod.fst = hdr) →
      chainC pk (some x) (rs ++ [r]) = some (applyUpdate x (eraseKey pk r)) := by
  intro rs
  induction rs with
  | nil => intro r x _; rfl
  | cons a rs ih =>
    intro r x hs
    rw [show (a :: rs) ++ [r] = a :: (rs ++ [r]) from rfl]
    rw [show chainC pk (some x) (a :: (rs ++ [r]))
        = chainC pk (some (applyUpdate x (eraseKey pk a))) (rs ++ [r]) from rfl]
    rw [ih r (applyUpdate x (eraseKey pk a)) (fun q hq => hs q (List.mem_cons_of_mem a hq))]
    rw [applyUpdate_collapse x (eraseKey pk a) (eraseKey pk r)
      (eraseKey_isSome_eq pk a r (hs a (by simp)) (hs r (by simp)))]

theorem chainC_idem {hdr : List String} (pk : String) (hnd : hdr.Nodup)
    (rs : List Row) (hs : ∀ q ∈ rs, q.map Prod.fst = hdr) (v : Option Row) :
    chainC pk (chainC pk v rs) rs = chainC pk v rs := by
  rcases List.eq_nil_or_concat rs with rfl | ⟨L, r, rfl⟩
  · rfl
  · rw [List.concat_eq_append] at hs ⊢
    rw [show chainC pk v (L ++ [r]) = some (mergeOld pk (chainC pk v L) r)
      from chainC_concat pk v L r]
    rw [chainC_some_concat pk L r (mergeOld pk (chainC pk v L) r) hs]
    congr 1
    cases hcl : chainC pk v L with
    | none =>
      simp only [mergeOld]
      exact applyUpdate_self pk r (by rw [hs r (by simp)]; exact hnd)
    | some x =>
      simp only [mergeOld]
      exact applyUpdate_idem x (eraseKey pk r)

theorem if_name_self (f : String → CanonicalTable) (name : String) :
    (fun n => if n = name then f name else f n) = f := by
  funext n
  by_cases h : n = name
  · rw [if_pos h, h]
  · rw [if_neg h]

theorem stepC_invalid {sch : TableSchema} {row : Row} (tbl : SqlTable)
    (t : CanonicalTable) (hv : rowValid sch row = false) :
    stepC tbl sch row t = t := by
  unfold stepC
  cases tbl.primaryKey.head? with
  | none => rfl
  | some pk => simp [hv]

theorem runC_noPk (tbl : SqlTable) (sch : TableSchema)
    (hpk : tbl.primaryKey.head? = none) :
    ∀ (rows : List Row) (t : CanonicalTable), runC tbl sch rows t = t := by
  intro rows
  induction rows with
  | nil => intro t; rfl
  | cons r rs ih =>
    intro t
    rw [show runC tbl sch (r :: rs) t = runC tbl sch rs (stepC tbl sch r t) from rfl]
    rw [show stepC tbl sch r t = t by unfold stepC; rw [hpk]]
    exact ih t

theorem runC_char (tbl : SqlTable) (sch : TableSchema) (pk : String)
    (hpk : tbl.primaryKey.head? = some pk) :
    ∀ (rows : List Row) (t : CanonicalTable) (k : Value),
      runC tbl sch rows t k = chainC pk (t k) (rows.filter (hits tbl sch k)) := by
  intro rows
  induction rows with
  | nil => intro t k; rfl
  | cons r rs ih =>
    intro t k
    rw [show runC tbl sch (r :: rs) t = runC tbl sch rs (stepC tbl sch r t) from rfl]
    rw [ih (stepC tbl sch r t) k]
    rw [List.filter_cons]
    by_cases hh : hits tbl sch k r = true
    · rw [if_pos hh]
      rw [show chainC pk (t k) (r :: List.filter (hits tbl sch k) rs)
          = chainC pk (some (mergeOld pk (t k) r)) (List.filter (hits tbl sch k) rs) from rfl]
      congr 1
      simp only [hits, hpk, Bool.and_eq_true, decide_eq_true_eq] at hh
      obtain ⟨hv, hl⟩ := hh
      simp only [stepC, hpk, hv, if_true]
      rw [hl]
      simp [tableUpsert]
    · rw [if_neg hh]
      congr 1
      simp only [hits, hpk, Bool.and_eq_true, decide_eq_true_eq] at hh
      simp only [stepC, hpk]
      cases hv : rowValid sch r with
      | false => simp
      | true =>
        simp only [if_true]
        cases hlk : r.lookup pk with
        | none => simp
        | some kv =>
          have hkk : k ≠ kv := by
            intro hkk
            exact hh ⟨hv, by rw [hlk]; exact congrArg some hkk.symm⟩
          simp [tableUpsert, hkk]

theorem runC_idem (tbl : SqlTable) (sch : TableSchema) (hdr : List String)
    (hnd : hdr.Nodup) (rows : List Row)
    (hs : ∀ q ∈ rows, q.map Prod.fst = hdr) (t : CanonicalTable) (k : Value) :
    runC tbl sch rows (runC tbl sch rows t) k = runC tbl sch rows t k := by
  cases hpk : tbl.primaryKey.head? with
  | none => rw [runC_noPk tbl sch hpk, runC_noPk tbl sch hpk]
  | some pk =>
    rw [runC_char tbl sch pk hpk rows (runC tbl sch rows t) k,
        runC_char tbl sch pk hpk rows t k]
    exact chainC_idem pk hnd _ (fun q hq => hs q (List.mem_of_mem_filter hq)) (t k)

theorem processRow_canonicals {T0 : String} {rT tbl : SqlTable} {sch : TableSchema}
    {aOut : DbOutcome} {row : Row} {s s' : PipeState}
    (h : processRow T0 rT tbl sch aOut (DbOutcome.ok 1) row s = some s') :
    s'.canonicals = fun n =>
      if n = tbl.name then stepC tbl sch row (s.canonicals tbl.name)
      else s.canonicals n := by
  unfold processRow validate_row_data at h
  have hsc := save_raw_canonicals T0 row rT aOut s
  cases hc : collectErrorFields sch row with
  | none => rw [hc] at h; exact absurd h (by simp)
  | some fields =>
    rw [hc] at h
    cases fields with
    | cons f fs =>
      dsimp only at h
      simp only [Option.some.injEq] at h
      rw [← h]
      rw [show (add_error T0 tbl.name (invalidFieldsMsg (rowLeading row) (f :: fs))
          (save_to_raw_data_table T0 row rT aOut s)).canonicals
          = (save_to_raw_data_table T0 row rT aOut s).canonicals from rfl, hsc]
      rw [stepC_invalid tbl _ (show rowValid sch row = false by simp [rowValid, hc])]
      exact (if_name_self s.canonicals tbl.name).symm
    | nil =>
      dsimp only at h
      have hv : rowValid sch row = true := by simp [rowValid, hc]
      unfold upsert_row at h
      split at h
      · rename_i hpk
        unfold upsertFail at h
        cases row with
        | nil => exact absurd h (by simp)
        | cons a l =>
          simp only [Option.some.injEq] at h
          rw [← h]
          rw [show (add_error T0 tbl.name (upsertErrMsg (rowLeading (a :: l)) "IndexError")
              (save_to_raw_data_table T0 (a :: l) rT aOut s)).canonicals
              = (save_to_raw_data_table T0 (a :: l) rT aOut s).canonicals from rfl, hsc]
          rw [show stepC tbl sch (a :: l) (s.canonicals tbl.name) = s.canonicals tbl.name by
            unfold stepC; rw [hpk]]
          exact (if_name_self s.canonicals tbl.name).symm
      · rename_i pk hpk
        unfold upsert_withPk at h
        split at h
        · rename_i hlk
          unfold upsertFail at h
          cases row with
          | nil => exact absurd h (by simp)
          | cons a l =>
            simp only [Option.some.injEq] at h
            rw [← h]
            rw [show (add_error T0 tbl.name
                (upsertErrMsg (rowLeading (a :: l)) ("KeyError: " ++ pk))
                (save_to_raw_data_table T0 (a :: l) rT aOut s)).canonicals
                = (save_to_raw_data_table T0 (a :: l) rT aOut s).canonicals from rfl, hsc]
            rw [show stepC tbl sch (a :: l) (s.canonicals tbl.name) = s.canonicals tbl.name by
              simp only [stepC, hpk, hv, if_true, hlk]]
            exact (if_name_self s.canonicals tbl.name).symm
        · rename_i kv hlk
          unfold upsert_core at h
          simp only [Option.some.injEq] at h
          rw [← h]
          rw [show ({ save_to_raw_data_table T0 row rT aOut s with
              canonicals := fun n =>
                if n = tbl.name then
                  tableUpsert pk kv row ((save_to_raw_data_table T0 row rT aOut s).canonicals tbl.name)
                else (save_to_raw_data_table T0 row rT aOut s).canonicals n,
              trace := (save_to_raw_data_table T0 row rT aOut s).trace
                ++ [Event.canonicalWrite tbl.name kv] } : PipeState).canonicals
              = fun n =>
                if n = tbl.name then
                  tableUpsert pk kv row ((save_to_raw_data_table T0 row rT aOut s).canonicals tbl.name)
                else (save_to_raw_data_table T0 row rT aOut s).canonicals n from rfl]
          rw [hsc]
          funext n
          by_cases hn : n = tbl.name
          · rw [if_pos hn, if_pos hn]
            simp only [stepC, hpk, hv, if_true, hlk]
          · rw [if_neg hn, if_neg hn]

theorem processRows_canonicals {T0 : String} {rT tbl : SqlTable} {sch : TableSchema}
    {aOuts : Nat → DbOutcome} :
    ∀ (rows : List Row) (i : Nat) (s s' : PipeState),
      processRows T0 rT tbl sch aOuts (fun _ => DbOutcome.ok 1) rows i s = some s' →
      s'.canonicals = fun n =>
        if n = tbl.name then runC tbl sch rows (s.canonicals tbl.name)
        else s.canonicals n := by
  intro rows
  induction rows with
  | nil =>
    intro i s s' h
    simp only [processRows, Option.some.injEq] at h
    rw [← h]
    exact (if_name_self s.canonicals tbl.name).symm
  | cons row rest ih =>
    intro i s s' h
    unfold processRows at h
    cases hr : processRow T0 rT tbl sch (aOuts i) (DbOutcome.ok 1) row s with
    | none => rw [hr] at h; exact absurd h (by simp)
    | some s₁ =>
      rw [hr] at h
      rw [ih (i + 1) s₁ s' h]
      have hrowfun := processRow_canonicals hr
      have hname : s₁.canonicals tbl.name = stepC tbl sch row (s.canonicals tbl.name) := by
        rw [hrowfun]
        simp
      funext n
      by_cases hn : n = tbl.name
      · rw [if_pos hn, if_pos hn, hname]
        rfl
      · rw [if_neg hn, if_neg hn, hrowfun]
        simp [hn]

/-- C4: running the entity pipeline twice on unchanged input (same CSV rows,
upserts succeeding) leaves the canonical tables exactly as after the first
run: the insert-on-conflict-do-update overwrites every non-key column with
the incoming row values, so re-applying the same rows changes nothing. -/
theorem c4_pipeline_idempotent (T0 : String) (env : EntityEnv) (rows : List Row)
    (hdr : List String) (s₁ s₂ s₃ : PipeState)
    (hro : env.readOutcome = ReadOutcome.ok rows)
    (hups : env.upsOuts = fun _ => DbOutcome.ok 1)
    (hnd : hdr.Nodup)
    (hs : ∀ r ∈ rows.map lowerCols, r.map Prod.fst = hdr)
    (h₁ : processEntity T0 env s₁ = some s₂)
    (h₂ : processEntity T0 env s₂ = some s₃) :
    ∀ n k, s₃.canonicals n k = s₂.canonicals n k := by
  have hdig : ∀ s s' : PipeState, processEntity T0 env s = some s' →
      s'.canonicals = fun n =>
        if n = env.tableName then
          runC ⟨env.tableName, env.pk⟩ env.schema (rows.map lowerCols)
            (s.canonicals env.tableName)
        else s.canonicals n := by
    intro s s' h
    unfold processEntity at h
    have hread : read_csv T0 (filePathFor env.tableName) env.readOutcome s = (rows, s) := by
      rw [hro]
      rfl
    rw [hread] at h
    dsimp only at h
    by_cases hlen : rows.length = 0
    · rw [if_pos hlen] at h
      simp only [Option.some.injEq] at h
      rw [← h]
      rw [List.length_eq_zero.mp hlen]
      rw [show (add_error T0 env.tableName noDataMsg s).canonicals = s.canonicals from rfl]
      exact (if_name_self s.canonicals env.tableName).symm
    · rw [if_neg hlen, hups] at h
      have hpr := processRows_canonicals (rows.map lowerCols) 0 _ s' h
      rw [hpr]
      have hvs : (validate_schema T0 env.schema.name env.bulkOutcome s).canonicals
          = s.canonicals := by
        cases env.bulkOutcome with
        | none => rfl
        | some e => rfl
      rw [hvs]
  have hc₂ := hdig s₁ s₂ h₁
  have hc₃ := hdig s₂ s₃ h₂
  intro n k
  rw [hc₃, hc₂]
  by_cases hn : n = env.tableName
  · simp only [hn, if_pos rfl]
    exact runC_idem ⟨env.tableName, env.pk⟩ env.schema hdr hnd (rows.map lowerCols) hs
      (s₁.canonicals env.tableName) k
  · simp only [if_neg hn]

/-- C4 witness: the two-row products run applied a second time leaves the
canonical record at key P1 unchanged. -/
theorem c4_witness :
    c4run2.canonicals "products" (Value.vStr "P1")
      = c4run1.canonicals "products" (Value.vStr "P1") :=
  c4_pipeline_idempotent sampleT0 c8env [prodRow1, prodRow2] prodHdr
    initState c4run1 c4run2 rfl rfl (by decide) (by decide) rfl rfl
    "products" (Value.vStr "P1")

/-- C8: for the spec scenario — header `productid,name,quantity,category,
subcategory` and rows `("P1","Widget",10,"A","A1")`, `("P1","Widget",15,
"A","A1")` in the same run — the canonical table holds the single record for
key P1 with `quantity = 15` (every non-key column from the last write), two
raw archive records are committed, the only canonical writes are the two
upserts at key P1, and no errors occur. -/
theorem c8_scenario :
    processEntity sampleT0 c8env initState = some c8run ∧
    c8run.canonicals "products" (Value.vStr "P1") =
      some [("productid", Value.vStr "P1"), ("name", Value.vStr "Widget"),
            ("quantity", Value.vInt 15), ("category", Value.vStr "A"),
            ("subcategory", Value.vStr "A1")] ∧
    c8run.raw.length = 2 ∧
    c8run.raw.map RawRecord.payload = [prodRow1, prodRow2] ∧
    c8run.trace.filter Event.isCanonicalWrite =
      [Event.canonicalWrite "products" (Value.vStr "P1"),
       Event.canonicalWrite "products" (Value.vStr "P1")] ∧
    c8run.errors = [] :=
  ⟨rfl, by decide, rfl, rfl, by decide, rfl⟩

/-- C7 witness: the concrete failing run flushes exactly once, after entity
processing, and a failing flush propagates. -/
theorem c7_witness :
    countFlush failRun.trace = 0 ∧
    (∀ e, failRun.errors ≠ [] →
      runMain sampleT0 [ordersReadFailEnv] (some e) = some (Except.error e)) ∧
    (failRun.errors ≠ [] →
      runMain sampleT0 [ordersReadFailEnv] none =
        some (Except.ok { failRun with
          trace := failRun.trace ++ [Event.flushWrite failRun.errors] })) ∧
    (failRun.errors = [] →
      runMain sampleT0 [ordersReadFailEnv] none = some (Except.ok failRun)) :=
  c7_flush_once_after_entities sampleT0 [ordersReadFailEnv] failRun rfl

/-- C5 witness: the orders entity with a failing CSV read. -/
theorem c5_witness :
    (c5run.errors.filter (fun r => r.recordtype == ordersReadFailEnv.tableName)).length
      = (initState.errors.filter (fun r => r.recordtype == ordersReadFailEnv.tableName)).length + 1 ∧
    c5run.raw = initState.raw ∧ c5run.canonicals = initState.canonicals ∧
    countArch c5run.trace = countArch initState.trace ∧
    countCanonW c5run.trace = countCanonW initState.trace ∧
    ((∃ m, ordersReadFailEnv.readOutcome = ReadOutcome.exn m) →
      ∃ m, c5run.errors = initState.errors ++
        [⟨initState.nextId, filePathFor ordersReadFailEnv.tableName,
          readErrMsg (filePathFor ordersReadFailEnv.tableName) m, sampleT0⟩,
         ⟨initState.nextId + 1, ordersReadFailEnv.tableName, noDataMsg, sampleT0⟩]) ∧
    (ordersReadFailEnv.readOutcome = ReadOutcome.ok [] →
      c5run.errors = initState.errors ++
        [⟨initState.nextId, ordersReadFailEnv.tableName, noDataMsg, sampleT0⟩]) :=
  c5_empty_or_unreadable sampleT0 ordersReadFailEnv initState c5run
    (Or.inl ⟨"No columns to parse from file", rfl⟩) rfl

/-- C2 witness: on the invalid `quantity="ten"` row the archive attempt is
made first and no canonical write happens. -/
theorem c2_witness :
    (rowValid productsSchema prodRowBad = true →
      some c2run = upsert_row sampleT0 prodRowBad productsT (DbOutcome.ok 1)
        (save_to_raw_data_table sampleT0 prodRowBad rawProductsT (DbOutcome.ok 1) initState)) ∧
    (rowValid productsSchema prodRowBad = false →
      c2run.canonicals = initState.canonicals ∧
      countCanonW c2run.trace = countCanonW initState.trace) ∧
    ∃ d, c2run.trace = initState.trace ++ Event.archiveAttempt rawProductsT.name :: d :=
  c2_upsert_iff_valid sampleT0 rawProductsT productsT productsSchema
    (DbOutcome.ok 1) (DbOutcome.ok 1) prodRowBad initState c2run rfl

/-- C9 witness: the two error records of a concrete failing run (added at
different points of the run) carry the identical class-definition
timestamp. -/
theorem c9_witness :
    (failRun.errors.getD 0 dummyRec).timestamp = sampleT0 ∧
    (failRun.errors.getD 0 dummyRec).timestamp = (failRun.errors.getD 1 dummyRec).timestamp :=
  c9_constant_error_timestamps sampleT0 [ordersReadFailEnv] failRun rfl
    (failRun.errors.getD 0 dummyRec) (by decide)
    (failRun.errors.getD 1 dummyRec) (by decide)

end DemaIngest
